import Mathlib

/-!
Verification development for `nilearn/_utils/progress.py`.

The module under study provides a textual progress tracker:
* `ProgressBar.__init__(n_steps, message=None, allow_additional_message=True)`,
* `ProgressBar.get_ellapsed_time`, `ProgressBar.get_remaining_time`,
* `ProgressBar.show_progress(additional_message=None)`,
* `EmptyProgressBar.show_progress(self)` (a no-op stand-in),
* `make_progress_bar(n_steps, verbosity_level=0)`.

Modelling conventions:
* Python floats are embedded as `ℚ` (exact rational idealization of the
  arithmetic; nothing proved here depends on binary rounding of doubles).
* `time.time()` is injected as an explicit timestamp argument `now : ℚ`;
  the two consecutive `time.time()` reads inside one
  `get_remaining_time` call are modelled as the same instant.
* Writes to `sys.stderr` and the final `print ""` (stdout) are collected,
  in emission order, in a `List String` result.
* Fallible Python code (ZeroDivisionError, AttributeError, TypeError)
  is modelled with `Except PyError`.
-/

namespace NilearnProgress

/-- The Python exceptions that the embedded code can raise. -/
inductive PyError where
  | typeError : PyError
  | attributeError : PyError
  | zeroDivisionError : PyError
  deriving DecidableEq

/-- `np.iinfo(np.int).max` on a 64-bit platform (`np.int` is the C long),
used by `__init__` as the initial `remaining_time_`. -/
def npIntMax : ℚ := 9223372036854775807

/-- The default message template assigned by `__init__` when `message is None`:
`"(%(current_state_)0.2f%% completed, %(remaining_time_)d secs remaining)\r"`. -/
def defaultMessage : String :=
  "(%(current_state_)0.2f%% completed, %(remaining_time_)d secs remaining)\r"

/-- Floor of a rational, `⌊q⌋`, written on the raw representation so that it
is kernel-computable. -/
def ratFloor (q : ℚ) : ℤ := q.num.fdiv (q.den : ℤ)

/-- Truncation toward zero, the conversion Python's `%d` applies to a float. -/
def ratTrunc (q : ℚ) : ℤ := q.num.tdiv (q.den : ℤ)

/-- Round to nearest (ties upward); used to idealize `%0.2f` digit rounding. -/
def ratRound (q : ℚ) : ℤ := ratFloor (q + 1 / 2)

/-- Left-pad a decimal string of a nonnegative value below 100 to two digits. -/
def twoDigits (n : ℤ) : String :=
  if n < 10 then "0" ++ toString n else toString n

/-- Rendering of `"%0.2f" % q`: fixed-point with two decimals.  (The
digit-level rounding of the binary float is idealized as round-half-up on
the exact rational.) -/
def fmtFixed2 (q : ℚ) : String :=
  (if q < 0 then "-" else "") ++
    toString (ratRound (|q| * 100) / 100) ++ "." ++
    twoDigits (ratRound (|q| * 100) % 100)

/-- Rendering of `"%d" % q` for a float value `q`: truncate toward zero. -/
def fmtTruncInt (q : ℚ) : String := toString (ratTrunc q)

/-- `"%80s" % s`: right-justify in a field of minimum width 80.  Strings of
80 or more characters are returned unchanged (no truncation). -/
def pad80 (s : String) : String :=
  String.mk (List.replicate (80 - s.length) ' ') ++ s

/-- `s.ljust(80)`: left-justify in a field of minimum width 80.  Strings of
80 or more characters are returned unchanged (no truncation). -/
def ljust80 (s : String) : String :=
  s ++ String.mk (List.replicate (80 - s.length) ' ')

/-- `self.message % self.__dict__` for the one template reachable in the
code, `defaultMessage` (a custom template makes `__init__` raise before
`self.message` is ever assigned, see `ProgressBar.init`).  The two named
fields referenced are `current_state_` (via `%0.2f`) and `remaining_time_`
(via `%d`); `%%` renders as a literal percent sign. -/
def renderDefaultMessage (cs rt : ℚ) : String :=
  "(" ++ fmtFixed2 cs ++ "% completed, " ++ fmtTruncInt rt ++ " secs remaining)" ++ "\r"

/-- The attribute dictionary of a constructed `ProgressBar` object. -/
structure ProgressBar where
  allow_additional_message : Bool
  message : String
  current_state_ : ℚ
  step_size_ : ℚ
  t0_ : ℚ
  remaining_time_ : ℚ
  deriving DecidableEq

/-- The attribute state `__init__` builds when `message is None` and
`n_steps ≠ 0`: `current_state_ = 0.`, `step_size_ = 100. / n_steps`,
`t0_ = time.time()`, `remaining_time_ = np.iinfo(np.int).max`. -/
def mkBar (n_steps : ℤ) (allow_additional_message : Bool) (t0 : ℚ) : ProgressBar :=
  { allow_additional_message := allow_additional_message
    message := defaultMessage
    current_state_ := 0
    step_size_ := 100 / (n_steps : ℚ)
    t0_ := t0
    remaining_time_ := npIntMax }

/-- `ProgressBar.__init__(n_steps, message, allow_additional_message)` with
creation time `t0`.  Faithful control flow of the source:
* `step_size_ = 100. / n_steps` raises `ZeroDivisionError` when `n_steps == 0`;
* when `message` is not `None`, **no** branch assigns `self.message`, so the
  final first print `self.message % self.__dict__` raises `AttributeError`
  (`'ProgressBar' object has no attribute 'message'`) and construction fails;
* otherwise the default template is stored and the initial 0%-progress line
  `"%80s" % (self.message % self.__dict__)` is written to stderr. -/
def ProgressBar.init (n_steps : ℤ) (message : Option String)
    (allow_additional_message : Bool) (t0 : ℚ) :
    Except PyError (ProgressBar × List String) :=
  if n_steps = 0 then Except.error PyError.zeroDivisionError
  else
    match message with
    | some _ => Except.error PyError.attributeError
    | none =>
      let bar := mkBar n_steps allow_additional_message t0
      Except.ok (bar, [pad80 (renderDefaultMessage bar.current_state_ bar.remaining_time_)])

/-- `get_ellapsed_time`: `time.time() - self.t0_`. -/
def ProgressBar.get_ellapsed_time (bar : ProgressBar) (now : ℚ) : ℚ :=
  now - bar.t0_

/-- `get_remaining_time`:
`estimated_total_time = 100. * self.get_ellapsed_time() / self.current_state_`
(a `ZeroDivisionError` when `current_state_` is zero), then
`estimated_total_time - self.get_ellapsed_time()`. -/
def ProgressBar.get_remaining_time (bar : ProgressBar) (now : ℚ) : Except PyError ℚ :=
  if bar.current_state_ = 0 then Except.error PyError.zeroDivisionError
  else
    Except.ok (100 * bar.get_ellapsed_time now / bar.current_state_ -
      bar.get_ellapsed_time now)

/-- `show_progress(additional_message=None)` at instant `now`.  Faithful
order of effects:
1. `self.current_state_ = self.current_state_ + self.step_size_`;
2. `self.remaining_time_ = self.get_remaining_time()`;
3. if an additional message was passed and `allow_additional_message`,
   write `additional_message.ljust(80)` to stderr;
4. write `"%80s" % (self.message % self.__dict__)` to stderr
   (every constructed bar carries the default template, so the rendered
   line is `renderDefaultMessage`);
5. if `current_state_ > 100 - step_size_`, `print ""` emits a bare
   newline (stdout). -/
def ProgressBar.show_progress (bar : ProgressBar) (now : ℚ)
    (additional_message : Option String) :
    Except PyError (ProgressBar × List String) :=
  let bar1 : ProgressBar := { bar with current_state_ := bar.current_state_ + bar.step_size_ }
  match bar1.get_remaining_time now with
  | Except.error e => Except.error e
  | Except.ok rt =>
    let bar2 : ProgressBar := { bar1 with remaining_time_ := rt }
    let annOut : List String :=
      match additional_message with
      | some m => if bar2.allow_additional_message then [ljust80 m] else []
      | none => []
    let statusOut : String :=
      pad80 (renderDefaultMessage bar2.current_state_ bar2.remaining_time_)
    let nlOut : List String :=
      if 100 - bar2.step_size_ < bar2.current_state_ then ["\n"] else []
    Except.ok (bar2, annOut ++ statusOut :: nlOut)

/-- A sequence of `show_progress` calls; each element of `calls` carries
the instant of the call and its optional additional message.  The second
component of the result lists, per call, the strings written by that call. -/
def runCalls (bar : ProgressBar) (calls : List (ℚ × Option String)) :
    Except PyError (ProgressBar × List (List String)) :=
  match calls with
  | [] => Except.ok (bar, [])
  | c :: rest =>
    match bar.show_progress c.1 c.2 with
    | Except.error e => Except.error e
    | Except.ok (b1, out1) =>
      match runCalls b1 rest with
      | Except.error e => Except.error e
      | Except.ok (b2, outs) => Except.ok (b2, out1 :: outs)

/-- The character stream a list of written strings puts on the terminal. -/
def emitted (l : List String) : List Char := (l.map String.data).flatten

/-- `EmptyProgressBar`: `class EmptyProgressBar(object)` has no state. -/
structure EmptyProgressBar where

/-- A call `e.show_progress(...)` on an `EmptyProgressBar`.  The source
method is `def show_progress(self): pass` — it accepts **no**
`additional_message` parameter, so per Python call semantics a call that
passes one raises `TypeError` at dispatch; a call without arguments does
nothing and writes nothing. -/
def EmptyProgressBar.show_progress (e : EmptyProgressBar)
    (additional_message : Option String) :
    Except PyError (EmptyProgressBar × List String) :=
  match additional_message with
  | none => Except.ok (e, [])
  | some _ => Except.error PyError.typeError

/-- The parameter names of `ProgressBar.__init__` (besides `self`). -/
def progressBarInitParamNames : List String :=
  ["n_steps", "message", "allow_additional_message"]

/-- Result of `make_progress_bar`: either the no-op `EmptyProgressBar` or a
(manager-wrapped) `ProgressBar` together with its initial output line. -/
inductive MakeResult where
  | empty : MakeResult
  | shared : ProgressBar → List String → MakeResult
  deriving DecidableEq

/-- `make_progress_bar(n_steps, verbosity_level)` with creation time `t0`.
`if verbosity_level == 0 or n_steps <= 1: return EmptyProgressBar()`;
otherwise the source calls
`progress_bar.Progress(n_steps=n_steps, verbosity_level=...)` through the
manager proxy.  The keyword set of that call is
`["n_steps", "verbosity_level"]`; Python matches it against
`progressBarInitParamNames`, and since `verbosity_level` is not among them
the call raises `TypeError` (unexpected keyword argument) before
`__init__` runs.  The guarded branch mirrors the intended construction
(`allow_additional_message` true exactly for `verbosity_level == 2`). -/
def make_progress_bar (n_steps : ℤ) (verbosity_level : ℤ) (t0 : ℚ) :
    Except PyError MakeResult :=
  if verbosity_level = 0 ∨ n_steps ≤ 1 then Except.ok MakeResult.empty
  else if ["n_steps", "verbosity_level"].all
      (fun kw => progressBarInitParamNames.contains kw) then
    (ProgressBar.init n_steps none (verbosity_level == 2) t0).map
      (fun p => MakeResult.shared p.1 p.2)
  else Except.error PyError.typeError

/-- State component of a successful `show_progress`, for witnesses. -/
def spStateD (bar : ProgressBar) (now : ℚ) (ann : Option String) : ProgressBar :=
  (((bar.show_progress now ann).toOption).map Prod.fst).getD bar

/-- Output component of a successful `show_progress`, for witnesses. -/
def spOutD (bar : ProgressBar) (now : ℚ) (ann : Option String) : List String :=
  (((bar.show_progress now ann).toOption).map Prod.snd).getD []

/-- State component of a successful `runCalls`, for witnesses. -/
def runStateD (bar : ProgressBar) (calls : List (ℚ × Option String)) : ProgressBar :=
  (((runCalls bar calls).toOption).map Prod.fst).getD bar

/-- Output component of a successful `runCalls`, for witnesses. -/
def runOutsD (bar : ProgressBar) (calls : List (ℚ × Option String)) : List (List String) :=
  (((runCalls bar calls).toOption).map Prod.snd).getD []

/-! ### Padding, emission and rendering facts -/

theorem pad80_length (s : String) : (pad80 s).length = max 80 s.length := by
  rw [pad80, String.length_append]
  simp only [String.length]
  simp only [List.length_replicate]
  omega

theorem ljust80_length (s : String) : (ljust80 s).length = max 80 s.length := by
  rw [ljust80, String.length_append]
  simp only [String.length]
  simp only [List.length_replicate]
  omega

theorem emitted_cons (s : String) (l : List String) :
    emitted (s :: l) = s.data ++ emitted l := by
  simp [emitted]

theorem getLast?_append_of_ne_nil {α : Type} (a b : List α) (h : b ≠ []) :
    (a ++ b).getLast? = b.getLast? := by
  rw [List.getLast?_append]
  obtain ⟨y, hy⟩ := Option.isSome_iff_exists.mp (List.getLast?_isSome.mpr h)
  rw [hy]
  rfl

theorem pad80_data (s : String) :
    (pad80 s).data = List.replicate (80 - s.length) ' ' ++ s.data :=
  String.data_append _ _

theorem renderDefaultMessage_lastChar (cs rt : ℚ) :
    (renderDefaultMessage cs rt).data.getLast? = some '\r' := by
  rw [renderDefaultMessage, String.data_append]
  rw [getLast?_append_of_ne_nil]
  · rfl
  · decide

theorem renderDefaultMessage_data_ne_nil (cs rt : ℚ) :
    (renderDefaultMessage cs rt).data ≠ [] := by
  intro h
  have := renderDefaultMessage_lastChar cs rt
  rw [h] at this
  exact Option.noConfusion this

theorem pad80_render_lastChar (cs rt : ℚ) :
    (pad80 (renderDefaultMessage cs rt)).data.getLast? = some '\r' := by
  rw [pad80_data, getLast?_append_of_ne_nil _ _ (renderDefaultMessage_data_ne_nil cs rt)]
  exact renderDefaultMessage_lastChar cs rt

/-! ### Unfolding lemmas for `show_progress` -/

theorem show_progress_eq (bar : ProgressBar) (now : ℚ) (ann : Option String)
    (h : bar.current_state_ + bar.step_size_ ≠ 0) :
    bar.show_progress now ann =
      Except.ok
        ({ bar with
            current_state_ := bar.current_state_ + bar.step_size_
            remaining_time_ :=
              100 * (now - bar.t0_) / (bar.current_state_ + bar.step_size_) -
                (now - bar.t0_) },
          (match ann with
            | some m => if bar.allow_additional_message then [ljust80 m] else []
            | none => []) ++
          pad80 (renderDefaultMessage (bar.current_state_ + bar.step_size_)
              (100 * (now - bar.t0_) / (bar.current_state_ + bar.step_size_) -
                (now - bar.t0_))) ::
            (if 100 - bar.step_size_ < bar.current_state_ + bar.step_size_
              then ["\n"] else [])) := by
  simp only [ProgressBar.show_progress, ProgressBar.get_remaining_time,
    ProgressBar.get_ellapsed_time, if_neg h]

theorem show_progress_div_zero (bar : ProgressBar) (now : ℚ) (ann : Option String)
    (h : bar.current_state_ + bar.step_size_ = 0) :
    bar.show_progress now ann = Except.error PyError.zeroDivisionError := by
  simp only [ProgressBar.show_progress, ProgressBar.get_remaining_time,
    ProgressBar.get_ellapsed_time, if_pos h]

theorem show_progress_fields (bar : ProgressBar) (now : ℚ) (ann : Option String)
    (b : ProgressBar) (out : List String)
    (h : bar.show_progress now ann = Except.ok (b, out)) :
    b.current_state_ = bar.current_state_ + bar.step_size_ ∧
    b.remaining_time_ =
      100 * (now - bar.t0_) / (bar.current_state_ + bar.step_size_) - (now - bar.t0_) ∧
    b.step_size_ = bar.step_size_ ∧ b.t0_ = bar.t0_ ∧ b.message = bar.message ∧
    b.allow_additional_message = bar.allow_additional_message := by
  by_cases hc : bar.current_state_ + bar.step_size_ = 0
  · rw [show_progress_div_zero bar now ann hc] at h
    exact Except.noConfusion h
  · rw [show_progress_eq bar now ann hc] at h
    simp only [Except.ok.injEq, Prod.mk.injEq] at h
    obtain ⟨hb, -⟩ := h
    subst hb
    exact ⟨rfl, rfl, rfl, rfl, rfl, rfl⟩

theorem show_progress_output_shape (bar : ProgressBar) (now : ℚ) (ann : Option String)
    (b : ProgressBar) (out : List String)
    (h : bar.show_progress now ann = Except.ok (b, out)) :
    ∃ annPart nlPart,
      out = annPart ++
        pad80 (renderDefaultMessage b.current_state_ b.remaining_time_) :: nlPart ∧
      (annPart = [] ∨
        ∃ m, ann = some m ∧ bar.allow_additional_message = true ∧ annPart = [ljust80 m]) ∧
      (nlPart = [] ∨ nlPart = ["\n"]) := by
  by_cases hc : bar.current_state_ + bar.step_size_ = 0
  · rw [show_progress_div_zero bar now ann hc] at h
    exact Except.noConfusion h
  · rw [show_progress_eq bar now ann hc] at h
    simp only [Except.ok.injEq, Prod.mk.injEq] at h
    obtain ⟨hb, hout⟩ := h
    subst hb
    refine ⟨_, _, hout.symm, ?_, ?_⟩
    · cases ann with
      | none => exact Or.inl rfl
      | some m =>
        by_cases ha : bar.allow_additional_message = true
        · refine Or.inr ⟨m, rfl, ha, ?_⟩
          show (if bar.allow_additional_message = true then [ljust80 m] else []) = _
          rw [if_pos ha]
        · refine Or.inl ?_
          show (if bar.allow_additional_message = true then [ljust80 m] else []) = _
          rw [if_neg ha]
    · by_cases hnl : 100 - bar.step_size_ < bar.current_state_ + bar.step_size_
      · exact Or.inr (by rw [if_pos hnl])
      · exact Or.inl (by rw [if_neg hnl])

theorem emitted_append (a b : List String) :
    emitted (a ++ b) = emitted a ++ emitted b := by
  simp [emitted]

theorem emitted_call_lastChar (pre : List String) (cs rt : ℚ)
    (cond : Prop) [Decidable cond] :
    (emitted (pre ++ pad80 (renderDefaultMessage cs rt) ::
        (if cond then ["\n"] else []))).getLast? =
      some (if cond then '\n' else '\r') := by
  by_cases h : cond
  · rw [if_pos h, if_pos h, emitted_append, emitted_cons]
    have : emitted ["\n"] = ['\n'] := rfl
    rw [this, ← List.append_assoc]
    exact List.getLast?_concat _
  · rw [if_neg h, if_neg h, emitted_append, emitted_cons]
    have : emitted ([] : List String) = [] := rfl
    rw [this, List.append_nil,
      getLast?_append_of_ne_nil _ _ (by
        rw [pad80_data]
        intro hnil
        exact renderDefaultMessage_data_ne_nil cs rt (List.append_eq_nil.mp hnil).2)]
    exact pad80_render_lastChar cs rt

/-- Trajectory of a `ProgressBar` with nonnegative progress and positive step
under any sequence of `show_progress` calls: every call succeeds, the state
advances by one `step_size_` per call while all other creation-time fields
are untouched, and the character stream of the k-th call ends in a newline
exactly when the updated progress has crossed `100 - step_size_`
(and in a carriage return otherwise). -/
theorem runCalls_spec (calls : List (ℚ × Option String)) (bar : ProgressBar)
    (hc : 0 ≤ bar.current_state_) (hs : 0 < bar.step_size_) :
    ∃ b outs, runCalls bar calls = Except.ok (b, outs) ∧
      b.current_state_ = bar.current_state_ + calls.length * bar.step_size_ ∧
      b.step_size_ = bar.step_size_ ∧
      b.t0_ = bar.t0_ ∧
      b.message = bar.message ∧
      b.allow_additional_message = bar.allow_additional_message ∧
      outs.length = calls.length ∧
      ∀ k, (hk : k < outs.length) →
        (emitted outs[k]).getLast? =
          some (if 100 - bar.step_size_ <
              bar.current_state_ + ((k : ℚ) + 1) * bar.step_size_
            then '\n' else '\r') := by
  induction calls generalizing bar with
  | nil =>
    refine ⟨bar, [], rfl, by simp, rfl, rfl, rfl, rfl, rfl, ?_⟩
    intro k hk
    simp at hk
  | cons c rest ih =>
    have hpos : 0 < bar.current_state_ + bar.step_size_ := by linarith
    have hcs : bar.current_state_ + bar.step_size_ ≠ 0 := ne_of_gt hpos
    obtain ⟨b, outs2, hrun2, hcurr, hstep, ht0, hmsg, hallow, hlen, hchar⟩ :=
      ih { bar with
            current_state_ := bar.current_state_ + bar.step_size_
            remaining_time_ :=
              100 * (c.1 - bar.t0_) / (bar.current_state_ + bar.step_size_) -
                (c.1 - bar.t0_) }
        (le_of_lt hpos) hs
    dsimp only at hcurr hstep ht0 hmsg hallow hchar
    refine ⟨b,
      ((match c.2 with
        | some m => if bar.allow_additional_message then [ljust80 m] else []
        | none => []) ++
        pad80 (renderDefaultMessage (bar.current_state_ + bar.step_size_)
            (100 * (c.1 - bar.t0_) / (bar.current_state_ + bar.step_size_) -
              (c.1 - bar.t0_))) ::
          (if 100 - bar.step_size_ < bar.current_state_ + bar.step_size_
            then ["\n"] else [])) :: outs2,
      ?_, ?_, hstep, ht0, hmsg, hallow, ?_, ?_⟩
    · simp only [runCalls, show_progress_eq bar c.1 c.2 hcs, hrun2]
    · rw [hcurr, List.length_cons]
      push_cast
      ring
    · simp [hlen]
    · intro k hk
      cases k with
      | zero =>
        simp only [List.getElem_cons_zero]
        have := emitted_call_lastChar
          (match c.2 with
            | some m => if bar.allow_additional_message then [ljust80 m] else []
            | none => [])
          (bar.current_state_ + bar.step_size_)
          (100 * (c.1 - bar.t0_) / (bar.current_state_ + bar.step_size_) -
            (c.1 - bar.t0_))
          (100 - bar.step_size_ < bar.current_state_ + bar.step_size_)
        rw [this]
        norm_num
      | succ k =>
        simp only [List.getElem_cons_succ]
        have hk2 : k < outs2.length := by
          simp only [List.length_cons] at hk
          omega
        have harith : bar.current_state_ + bar.step_size_ + ((k : ℚ) + 1) * bar.step_size_
            = bar.current_state_ + (((k + 1 : ℕ) : ℚ) + 1) * bar.step_size_ := by
          push_cast
          ring
        have hx := hchar k hk2
        rw [harith] at hx
        exact hx

/-! ### Constructor facts -/

theorem mkBar_current (n : ℤ) (allow : Bool) (t0 : ℚ) :
    (mkBar n allow t0).current_state_ = 0 := rfl

theorem mkBar_step (n : ℤ) (allow : Bool) (t0 : ℚ) :
    (mkBar n allow t0).step_size_ = 100 / (n : ℚ) := rfl

theorem mkBar_t0 (n : ℤ) (allow : Bool) (t0 : ℚ) :
    (mkBar n allow t0).t0_ = t0 := rfl

theorem init_ok (n : ℤ) (hn : n ≠ 0) (allow : Bool) (t0 : ℚ) :
    ProgressBar.init n none allow t0 =
      Except.ok (mkBar n allow t0, [pad80 (renderDefaultMessage 0 npIntMax)]) := by
  simp only [ProgressBar.init, if_neg hn]
  rfl

theorem init_inv (n : ℤ) (hn : n ≠ 0) (allow : Bool) (t0 : ℚ)
    (bar0 : ProgressBar) (out0 : List String)
    (h : ProgressBar.init n none allow t0 = Except.ok (bar0, out0)) :
    bar0 = mkBar n allow t0 := by
  rw [init_ok n hn allow t0] at h
  simp only [Except.ok.injEq, Prod.mk.injEq] at h
  exact h.1.symm

theorem step_pos (n : ℤ) (hn : 1 ≤ n) (allow : Bool) (t0 : ℚ) :
    0 < (mkBar n allow t0).step_size_ := by
  have h0 : (0 : ℚ) < (n : ℚ) := by
    have : (0 : ℤ) < n := by omega
    exact_mod_cast this
  show (0 : ℚ) < 100 / (n : ℚ)
  exact div_pos (by norm_num) h0

/-! ### Evaluation helpers for concrete runs -/

theorem show_progress_eq_of_ok (bar : ProgressBar) (now : ℚ) (ann : Option String)
    (h : bar.current_state_ + bar.step_size_ ≠ 0) :
    bar.show_progress now ann =
      Except.ok (spStateD bar now ann, spOutD bar now ann) := by
  simp [spStateD, spOutD, show_progress_eq bar now ann h, Except.toOption]

theorem runCalls_eq_of_ok (bar : ProgressBar) (calls : List (ℚ × Option String))
    (hc : 0 ≤ bar.current_state_) (hs : 0 < bar.step_size_) :
    runCalls bar calls = Except.ok (runStateD bar calls, runOutsD bar calls) := by
  obtain ⟨b, outs, hrun, -⟩ := runCalls_spec calls bar hc hs
  simp [runStateD, runOutsD, hrun, Except.toOption]

/-! ### The remaining-time estimate -/

theorem remaining_nonneg_arith (e cs : ℚ) (he : 0 ≤ e) (h0 : 0 < cs)
    (h100 : cs ≤ 100) : 0 ≤ 100 * e / cs - e := by
  rw [sub_nonneg, le_div_iff₀ h0]
  nlinarith

/-- As long as the call count keeps the (positive-step) progress at or
below 100 and all call instants are at or after the start time, the
remaining-time estimate stored after a nonempty run is nonnegative. -/
theorem runCalls_remaining_nonneg (calls : List (ℚ × Option String))
    (bar : ProgressBar) (hc : 0 ≤ bar.current_state_) (hs : 0 < bar.step_size_)
    (hub : bar.current_state_ + calls.length * bar.step_size_ ≤ 100)
    (helap : ∀ c ∈ calls, bar.t0_ ≤ c.1)
    (hne : calls ≠ [])
    (b : ProgressBar) (outs : List (List String))
    (hrun : runCalls bar calls = Except.ok (b, outs)) :
    0 ≤ b.remaining_time_ := by
  induction calls generalizing bar b outs with
  | nil => exact absurd rfl hne
  | cons c rest ih =>
    have hpos : 0 < bar.current_state_ + bar.step_size_ := by linarith
    have hcs : bar.current_state_ + bar.step_size_ ≠ 0 := ne_of_gt hpos
    have hL1 : (1 : ℚ) ≤ ((c :: rest).length : ℚ) := by
      have h1 : 1 ≤ (c :: rest).length := by simp
      exact_mod_cast h1
    have hcs100 : bar.current_state_ + bar.step_size_ ≤ 100 := by
      nlinarith
    have he : 0 ≤ c.1 - bar.t0_ := by
      have := helap c (List.mem_cons_self c rest)
      linarith
    simp only [runCalls, show_progress_eq bar c.1 c.2 hcs] at hrun
    cases rest with
    | nil =>
      simp only [runCalls, Except.ok.injEq, Prod.mk.injEq] at hrun
      obtain ⟨hb, -⟩ := hrun
      rw [← hb]
      show 0 ≤ 100 * (c.1 - bar.t0_) / (bar.current_state_ + bar.step_size_) -
        (c.1 - bar.t0_)
      exact remaining_nonneg_arith _ _ he hpos hcs100
    | cons c2 rest2 =>
      cases hrec : runCalls
          { bar with
              current_state_ := bar.current_state_ + bar.step_size_
              remaining_time_ :=
                100 * (c.1 - bar.t0_) / (bar.current_state_ + bar.step_size_) -
                  (c.1 - bar.t0_) }
          (c2 :: rest2) with
      | error e =>
        rw [hrec] at hrun
        exact Except.noConfusion hrun
      | ok p =>
        obtain ⟨pb, pouts⟩ := p
        rw [hrec] at hrun
        simp only [Except.ok.injEq, Prod.mk.injEq] at hrun
        obtain ⟨hb, -⟩ := hrun
        rw [← hb]
        refine ih
          { bar with
              current_state_ := bar.current_state_ + bar.step_size_
              remaining_time_ :=
                100 * (c.1 - bar.t0_) / (bar.current_state_ + bar.step_size_) -
                  (c.1 - bar.t0_) }
          (le_of_lt hpos) hs ?_ ?_ (List.cons_ne_nil c2 rest2) pb pouts hrec
        · show bar.current_state_ + bar.step_size_ +
            ((c2 :: rest2).length : ℚ) * bar.step_size_ ≤ 100
          have hlen : ((c :: c2 :: rest2).length : ℚ) =
              ((c2 :: rest2).length : ℚ) + 1 := by
            push_cast [List.length_cons]
            ring
          rw [hlen] at hub
          nlinarith
        · intro x hx
          show bar.t0_ ≤ x.1
          exact helap x (List.mem_cons_of_mem c hx)

/-! ### Claim theorems -/

/-- Claim C3 (code bug).  The spec says the no-op variant implements the
identical `advance` signature and that calling it with or without an
annotation argument produces no output and never raises.  The source method
is `def show_progress(self): pass`, so an argument-free call indeed does
nothing and writes nothing, but a call that passes an annotation — which
the identical-signature contract promises to accept — raises `TypeError`
(`show_progress() takes exactly 1 argument (2 given)`), contradicting the
class's own docstring ("mimic the API of a ProgressBar object"). -/
theorem C3_empty_show_progress :
    EmptyProgressBar.mk.show_progress none = Except.ok (EmptyProgressBar.mk, []) ∧
    EmptyProgressBar.mk.show_progress (some "worker 3") =
      Except.error PyError.typeError :=
  ⟨rfl, rfl⟩

/-- Claim C4 (code bug).  `make_progress_bar` does return the no-op variant
exactly when `verbosity_level = 0` or `n_steps ≤ 1`, but for every other
input it raises `TypeError` instead of returning a working tracker: the
source passes the keyword `verbosity_level` to `ProgressBar.__init__`,
whose parameters are only `n_steps`, `message`,
`allow_additional_message`. -/
theorem C4_make_progress_bar :
    make_progress_bar 10 0 0 = Except.ok MakeResult.empty ∧
    make_progress_bar 1 2 0 = Except.ok MakeResult.empty ∧
    make_progress_bar 0 1 0 = Except.ok MakeResult.empty ∧
    make_progress_bar 10 1 0 = Except.error PyError.typeError ∧
    make_progress_bar 10 2 0 = Except.error PyError.typeError :=
  ⟨rfl, rfl, rfl, rfl, rfl⟩

/-- Claim C5 (code bug).  Creating a `ProgressBar` with a custom message
template never succeeds: `__init__` assigns `self.message` only in the
`message is None` branch, so the first print `self.message % self.__dict__`
raises `AttributeError` for every supplied template — even one referencing
only the tracker's own named fields, such as
`"(%(current_state_)0.2f%%)\r"`.  The default-message construction, in
contrast, succeeds and emits the initial padded line. -/
theorem C5_custom_message :
    ProgressBar.init 10 (some "(%(current_state_)0.2f%%)\r") true 0 =
      Except.error PyError.attributeError ∧
    ProgressBar.init 10 none true 0 =
      Except.ok (mkBar 10 true 0, [pad80 (renderDefaultMessage 0 npIntMax)]) :=
  ⟨rfl, rfl⟩

/-- Claim C7 (confirmed).  On a `ProgressBar` created with
`total_steps ≥ 1`, every sequence of `show_progress` calls (with any
annotations, at any instants) succeeds: the call increments
`current_state_` — which starts at 0 and, with the positive step size,
never decreases — before computing the remaining-time estimate, so the
denominator of the division is never zero and no call raises
`ZeroDivisionError`. -/
theorem C7_no_division_by_zero (n : ℤ) (hn : 1 ≤ n) (t0 : ℚ) (allow : Bool)
    (bar0 : ProgressBar) (out0 : List String)
    (hinit : ProgressBar.init n none allow t0 = Except.ok (bar0, out0))
    (calls : List (ℚ × Option String)) :
    ∃ b outs, runCalls bar0 calls = Except.ok (b, outs) := by
  have hn0 : n ≠ 0 := by omega
  have hbar0 := init_inv n hn0 allow t0 bar0 out0 hinit
  subst hbar0
  obtain ⟨b, outs, hrun, -⟩ := runCalls_spec calls (mkBar n allow t0)
    (le_of_eq (mkBar_current n allow t0).symm) (step_pos n hn allow t0)
  exact ⟨b, outs, hrun⟩

/-- Witness for C7 at `n_steps = 1`, two calls. -/
theorem C7_no_division_by_zero_witness :
    runCalls (mkBar 1 true 0) [((0 : ℚ), (none : Option String)), ((1 : ℚ), none)] =
      Except.ok
        (runStateD (mkBar 1 true 0) [((0 : ℚ), none), ((1 : ℚ), none)],
          runOutsD (mkBar 1 true 0) [((0 : ℚ), none), ((1 : ℚ), none)]) := by
  obtain ⟨b, outs, hrun⟩ := C7_no_division_by_zero 1 (by decide) 0 true
    (mkBar 1 true 0) [pad80 (renderDefaultMessage 0 npIntMax)] rfl
    [((0 : ℚ), none), ((1 : ℚ), none)]
  simp [runStateD, runOutsD, hrun, Except.toOption]

/-- Claim C9 (confirmed).  A `show_progress` call mutates only
`current_state_` and `remaining_time_`: `step_size_`, `t0_`, `message`
and `allow_additional_message` keep the values they had before the call. -/
theorem C9_show_progress_frame (bar : ProgressBar) (now : ℚ) (ann : Option String)
    (b : ProgressBar) (out : List String)
    (h : bar.show_progress now ann = Except.ok (b, out)) :
    b.step_size_ = bar.step_size_ ∧ b.t0_ = bar.t0_ ∧
    b.message = bar.message ∧
    b.allow_additional_message = bar.allow_additional_message := by
  obtain ⟨-, -, h3, h4, h5, h6⟩ := show_progress_fields bar now ann b out h
  exact ⟨h3, h4, h5, h6⟩

/-- Witness for C9 on a concrete call. -/
theorem C9_show_progress_frame_witness :
    (spStateD (mkBar 10 true 0) 0 none).step_size_ = (mkBar 10 true 0).step_size_ ∧
    (spStateD (mkBar 10 true 0) 0 none).t0_ = (mkBar 10 true 0).t0_ ∧
    (spStateD (mkBar 10 true 0) 0 none).message = (mkBar 10 true 0).message ∧
    (spStateD (mkBar 10 true 0) 0 none).allow_additional_message =
      (mkBar 10 true 0).allow_additional_message :=
  C9_show_progress_frame (mkBar 10 true 0) 0 none _ _
    (show_progress_eq_of_ok (mkBar 10 true 0) 0 none (by norm_num [mkBar]))

/-- Claim C1 (confirmed).  For every `total_steps > 1`, creating a
`ProgressBar` and calling `show_progress` exactly `total_steps` times
leaves `current_state_` within one `step_size` (`= 100/total_steps`) of
100 (in the exact rational model it lands on 100 precisely); in
particular for `total_steps = 10` the final `current_state_` is exactly
100, and the 10th call's character stream ends with a newline while each
of calls 1 through 9 ends with a carriage return. -/
theorem C1_completion (n : ℤ) (hn : 1 < n) (t0 : ℚ) (allow : Bool)
    (bar0 : ProgressBar) (out0 : List String)
    (hinit : ProgressBar.init n none allow t0 = Except.ok (bar0, out0))
    (times : List ℚ) (hlen : (times.length : ℤ) = n)
    (b : ProgressBar) (outs : List (List String))
    (hrun : runCalls bar0 (times.map (fun t => (t, (none : Option String)))) =
      Except.ok (b, outs)) :
    |b.current_state_ - 100| ≤ b.step_size_ ∧
    (n = 10 →
      b.current_state_ = 100 ∧
      outs.length = 10 ∧
      (∀ k, (hk : k < outs.length) → k ≤ 8 →
        (emitted outs[k]).getLast? = some '\r') ∧
      (∀ h9 : 9 < outs.length, (emitted outs[9]).getLast? = some '\n')) := by
  have hn0 : n ≠ 0 := by omega
  have hbar0 := init_inv n hn0 allow t0 bar0 out0 hinit
  subst hbar0
  obtain ⟨b', outs', hrun', hcurr, hstep, -, -, -, hlen', hchar⟩ :=
    runCalls_spec (times.map (fun t => (t, (none : Option String))))
      (mkBar n allow t0)
      (le_of_eq (mkBar_current n allow t0).symm) (step_pos n (by omega) allow t0)
  rw [hrun'] at hrun
  simp only [Except.ok.injEq, Prod.mk.injEq] at hrun
  obtain ⟨hb, houts⟩ := hrun
  subst hb
  subst houts
  simp only [mkBar_current, mkBar_step, List.length_map, zero_add] at hcurr hlen' hchar
  have hnq : ((n : ℚ)) ≠ 0 := by exact_mod_cast hn0
  have hLq : ((times.length : ℚ)) = (n : ℚ) := by exact_mod_cast hlen
  have hb100 : b'.current_state_ = 100 := by
    rw [hcurr, hLq]
    field_simp
  have hstep_nonneg : (0 : ℚ) ≤ 100 / (n : ℚ) := by
    apply div_nonneg (by norm_num)
    have : (0 : ℤ) ≤ n := by omega
    exact_mod_cast this
  constructor
  · rw [hb100, hstep, mkBar_step]
    simp only [sub_self, abs_zero]
    exact hstep_nonneg
  · intro h10
    subst h10
    refine ⟨hb100, ?_, ?_, ?_⟩
    · rw [hlen']
      exact_mod_cast hlen
    · intro k hk hk8
      have hkq : (k : ℚ) ≤ 8 := by exact_mod_cast hk8
      have hx := hchar k hk
      rw [if_neg (by push_cast; nlinarith)] at hx
      exact hx
    · intro h9
      have hx := hchar 9 h9
      rw [if_pos (by push_cast; norm_num)] at hx
      exact hx

/-- Witness for C1 at `n = 10` with ten calls at instant 0. -/
theorem C1_completion_witness :
    |(runStateD (mkBar 10 true 0)
        ((List.replicate 10 (0 : ℚ)).map (fun t => (t, (none : Option String))))).current_state_ -
      100| ≤
      (runStateD (mkBar 10 true 0)
        ((List.replicate 10 (0 : ℚ)).map (fun t => (t, none)))).step_size_ ∧
    (runStateD (mkBar 10 true 0)
      ((List.replicate 10 (0 : ℚ)).map (fun t => (t, none)))).current_state_ = 100 ∧
    (runOutsD (mkBar 10 true 0)
      ((List.replicate 10 (0 : ℚ)).map (fun t => (t, none)))).length = 10 := by
  have h := C1_completion 10 (by decide) 0 true (mkBar 10 true 0)
    [pad80 (renderDefaultMessage 0 npIntMax)] rfl (List.replicate 10 0) (by decide)
    (runStateD (mkBar 10 true 0)
      ((List.replicate 10 (0 : ℚ)).map (fun t => (t, none))))
    (runOutsD (mkBar 10 true 0)
      ((List.replicate 10 (0 : ℚ)).map (fun t => (t, none))))
    (runCalls_eq_of_ok (mkBar 10 true 0) _ (by norm_num [mkBar]) (by norm_num [mkBar]))
  exact ⟨h.1, (h.2 rfl).1, (h.2 rfl).2.1⟩

/-- Claim C2 (confirmed).  On a `ProgressBar` created with
`total_steps > 1`, `current_state_` is monotonically non-decreasing along
`show_progress` calls, and as long as at most `total_steps + 1` calls have
been made it never exceeds `100` plus one `step_size` increment. -/
theorem C2_monotone (n : ℤ) (hn : 1 < n) (t0 : ℚ) (allow : Bool)
    (bar0 : ProgressBar) (out0 : List String)
    (hinit : ProgressBar.init n none allow t0 = Except.ok (bar0, out0))
    (calls : List (ℚ × Option String)) (k : ℕ)
    (b b' : ProgressBar) (o o' : List (List String))
    (hk : runCalls bar0 (calls.take k) = Except.ok (b, o))
    (hk1 : runCalls bar0 (calls.take (k + 1)) = Except.ok (b', o')) :
    b.current_state_ ≤ b'.current_state_ ∧
    ((calls.length : ℤ) ≤ n + 1 →
      ∀ bf outsf, runCalls bar0 calls = Except.ok (bf, outsf) →
        bf.current_state_ ≤ 100 + bar0.step_size_) := by
  have hn0 : n ≠ 0 := by omega
  have hbar0 := init_inv n hn0 allow t0 bar0 out0 hinit
  subst hbar0
  have hspos := step_pos n (by omega) allow t0
  have hc0 : (0 : ℚ) ≤ (mkBar n allow t0).current_state_ :=
    le_of_eq (mkBar_current n allow t0).symm
  have hnq : (0 : ℚ) < (n : ℚ) := by
    have : (0 : ℤ) < n := by omega
    exact_mod_cast this
  have hstep_nonneg : (0 : ℚ) ≤ 100 / (n : ℚ) :=
    le_of_lt (div_pos (by norm_num) hnq)
  constructor
  · obtain ⟨b1, o1, hrun1, hcurr1, -⟩ :=
      runCalls_spec (calls.take k) (mkBar n allow t0) hc0 hspos
    obtain ⟨b2, o2, hrun2, hcurr2, -⟩ :=
      runCalls_spec (calls.take (k + 1)) (mkBar n allow t0) hc0 hspos
    rw [hrun1] at hk
    rw [hrun2] at hk1
    simp only [Except.ok.injEq, Prod.mk.injEq] at hk hk1
    obtain ⟨hb1, -⟩ := hk
    obtain ⟨hb2, -⟩ := hk1
    subst hb1
    subst hb2
    rw [hcurr1, hcurr2]
    simp only [mkBar_current, mkBar_step, List.length_take, zero_add]
    apply mul_le_mul_of_nonneg_right ?_ hstep_nonneg
    have hmin : min k calls.length ≤ min (k + 1) calls.length := by omega
    exact_mod_cast hmin
  · intro hbound bf outsf hrunf
    obtain ⟨b3, o3, hrun3, hcurr3, -⟩ :=
      runCalls_spec calls (mkBar n allow t0) hc0 hspos
    rw [hrun3] at hrunf
    simp only [Except.ok.injEq, Prod.mk.injEq] at hrunf
    obtain ⟨hb3, -⟩ := hrunf
    subst hb3
    rw [hcurr3]
    simp only [mkBar_current, mkBar_step, zero_add]
    have hLq : ((calls.length : ℚ)) ≤ (n : ℚ) + 1 := by exact_mod_cast hbound
    have key : ((calls.length : ℚ)) * (100 / (n : ℚ)) ≤
        ((n : ℚ) + 1) * (100 / (n : ℚ)) :=
      mul_le_mul_of_nonneg_right hLq hstep_nonneg
    have expand : ((n : ℚ) + 1) * (100 / (n : ℚ)) = 100 + 100 / (n : ℚ) := by
      field_simp
      ring
    rw [expand] at key
    exact key

/-- Witness for C2 at `n = 10`, four calls, comparing call 1 with call 2. -/
theorem C2_monotone_witness :
    (runStateD (mkBar 10 true 0)
      ((List.replicate 4 ((0 : ℚ), (none : Option String))).take 1)).current_state_ ≤
      (runStateD (mkBar 10 true 0)
        ((List.replicate 4 ((0 : ℚ), none)).take 2)).current_state_ ∧
    (runStateD (mkBar 10 true 0)
      (List.replicate 4 ((0 : ℚ), none))).current_state_ ≤
      100 + (mkBar 10 true 0).step_size_ := by
  have h := C2_monotone 10 (by decide) 0 true (mkBar 10 true 0)
    [pad80 (renderDefaultMessage 0 npIntMax)] rfl
    (List.replicate 4 ((0 : ℚ), none)) 1
    (runStateD (mkBar 10 true 0) ((List.replicate 4 ((0 : ℚ), none)).take 1))
    (runStateD (mkBar 10 true 0) ((List.replicate 4 ((0 : ℚ), none)).take 2))
    (runOutsD (mkBar 10 true 0) ((List.replicate 4 ((0 : ℚ), none)).take 1))
    (runOutsD (mkBar 10 true 0) ((List.replicate 4 ((0 : ℚ), none)).take 2))
    (runCalls_eq_of_ok (mkBar 10 true 0) _ (by norm_num [mkBar]) (by norm_num [mkBar]))
    (runCalls_eq_of_ok (mkBar 10 true 0) _ (by norm_num [mkBar]) (by norm_num [mkBar]))
  refine ⟨h.1, h.2 (by decide) _ _
    (runCalls_eq_of_ok (mkBar 10 true 0) _ (by norm_num [mkBar]) (by norm_num [mkBar]))⟩

/-- Claim C6 (confirmed).  Every `show_progress` call first increments
`current_state_` by `step_size_` and then recomputes `remaining_time_` as
`(100·elapsed)/current_state_ − elapsed` (with the post-increment
`current_state_` as denominator); and on a `ProgressBar` created with
`total_steps > 1`, after between 1 and `total_steps` calls whose instants
are all at or after the creation time (non-negative elapsed time), the
stored `remaining_time_` is non-negative. -/
theorem C6_remaining_time_nonneg (n : ℤ) (hn : 1 < n) (t0 : ℚ) (allow : Bool)
    (bar0 : ProgressBar) (out0 : List String)
    (hinit : ProgressBar.init n none allow t0 = Except.ok (bar0, out0))
    (calls : List (ℚ × Option String)) (hne : calls ≠ [])
    (hlen : (calls.length : ℤ) ≤ n)
    (helap : ∀ c ∈ calls, t0 ≤ c.1)
    (b : ProgressBar) (outs : List (List String))
    (hrun : runCalls bar0 calls = Except.ok (b, outs)) :
    0 ≤ b.remaining_time_ ∧
    ∀ (bar : ProgressBar) (now : ℚ) (ann : Option String)
      (b' : ProgressBar) (out : List String),
      bar.show_progress now ann = Except.ok (b', out) →
      b'.current_state_ = bar.current_state_ + bar.step_size_ ∧
      b'.remaining_time_ =
        100 * (now - bar.t0_) / b'.current_state_ - (now - bar.t0_) := by
  constructor
  · have hn0 : n ≠ 0 := by omega
    have hbar0 := init_inv n hn0 allow t0 bar0 out0 hinit
    subst hbar0
    have hnq : (0 : ℚ) < (n : ℚ) := by
      have : (0 : ℤ) < n := by omega
      exact_mod_cast this
    refine runCalls_remaining_nonneg calls (mkBar n allow t0)
      (le_of_eq (mkBar_current n allow t0).symm) (step_pos n (by omega) allow t0)
      ?_ ?_ hne b outs hrun
    · simp only [mkBar_current, mkBar_step, zero_add]
      have hLq : ((calls.length : ℚ)) ≤ (n : ℚ) := by exact_mod_cast hlen
      calc ((calls.length : ℚ)) * (100 / (n : ℚ)) ≤ (n : ℚ) * (100 / (n : ℚ)) :=
            mul_le_mul_of_nonneg_right hLq (le_of_lt (div_pos (by norm_num) hnq))
        _ = 100 := by field_simp
    · intro c hc
      rw [mkBar_t0]
      exact helap c hc
  · intro bar now ann b' out h
    obtain ⟨h1, h2, -, -, -, -⟩ := show_progress_fields bar now ann b' out h
    refine ⟨h1, ?_⟩
    rw [h2, h1]

/-- Witness for C6 at `n = 10`, one call at the creation instant. -/
theorem C6_remaining_time_nonneg_witness :
    0 ≤ (runStateD (mkBar 10 true 0) [((0 : ℚ), (none : Option String))]).remaining_time_ :=
  (C6_remaining_time_nonneg 10 (by decide) 0 true (mkBar 10 true 0)
    [pad80 (renderDefaultMessage 0 npIntMax)] rfl
    [((0 : ℚ), none)] (List.cons_ne_nil _ _) (by decide) (by simp)
    (runStateD (mkBar 10 true 0) [((0 : ℚ), none)])
    (runOutsD (mkBar 10 true 0) [((0 : ℚ), none)])
    (runCalls_eq_of_ok (mkBar 10 true 0) _ (by norm_num [mkBar]) (by norm_num [mkBar]))).1

/-- Counterexample to claim C8 as stated.  The claim says every emitted
line is truncated or padded to exactly 80 characters regardless of the
length of the caller-supplied annotation.  But `ljust(80)` and `"%80s"`
only pad — they never truncate — so an 81-character annotation is emitted
at length 81. -/
theorem C8_counterexample :
    ∃ b out,
      (mkBar 10 true 0).show_progress 0
          (some (String.mk (List.replicate 81 'a'))) = Except.ok (b, out) ∧
      ∃ s ∈ out, s.length ≠ 80 := by
  have hcs : (mkBar 10 true 0).current_state_ + (mkBar 10 true 0).step_size_ ≠ 0 := by
    norm_num [mkBar]
  rw [show_progress_eq (mkBar 10 true 0) 0 (some (String.mk (List.replicate 81 'a'))) hcs]
  refine ⟨_, _, rfl, ljust80 (String.mk (List.replicate 81 'a')), ?_, ?_⟩
  · simp [mkBar]
  · rw [ljust80_length]
    show max 80 (String.mk (List.replicate 81 'a')).length ≠ 80
    simp only [String.length, List.length_replicate]
    omega

/-- Claim C8 as amended (corrected).  Every line the tracker writes to the
diagnostic stream — the initial line at creation, the per-call status line,
and any annotation line — is **padded** to the fixed 80-character width
when its content is at most 80 characters, and is emitted at its full
length otherwise (the code pads but never truncates); when an annotation
is supplied and the verbosity tier allows it, the annotation is written
left-justified and padded immediately before the status line. -/
theorem C8_fixed_width (bar : ProgressBar) (now : ℚ) (ann : Option String)
    (b : ProgressBar) (out : List String)
    (h : bar.show_progress now ann = Except.ok (b, out)) :
    (∃ nlPart, (nlPart = [] ∨ nlPart = ["\n"]) ∧
      (∀ m, ann = some m → bar.allow_additional_message = true →
        out = ljust80 m ::
          pad80 (renderDefaultMessage b.current_state_ b.remaining_time_) :: nlPart) ∧
      ((ann = none ∨ bar.allow_additional_message = false) →
        out = pad80 (renderDefaultMessage b.current_state_ b.remaining_time_) :: nlPart)) ∧
    (∀ s : String, (pad80 s).length = max 80 s.length ∧
      (ljust80 s).length = max 80 s.length) ∧
    (∀ (n : ℤ) (t1 : ℚ) (a : Bool) (b0 : ProgressBar) (o0 : List String),
      ProgressBar.init n none a t1 = Except.ok (b0, o0) →
      o0 = [pad80 (renderDefaultMessage b0.current_state_ b0.remaining_time_)]) := by
  refine ⟨?_, fun s => ⟨pad80_length s, ljust80_length s⟩, ?_⟩
  · by_cases hc : bar.current_state_ + bar.step_size_ = 0
    · rw [show_progress_div_zero bar now ann hc] at h
      exact Except.noConfusion h
    · rw [show_progress_eq bar now ann hc] at h
      simp only [Except.ok.injEq, Prod.mk.injEq] at h
      obtain ⟨hb, hout⟩ := h
      subst hb
      refine ⟨if 100 - bar.step_size_ < bar.current_state_ + bar.step_size_
          then ["\n"] else [], ?_, ?_, ?_⟩
      · by_cases hnl : 100 - bar.step_size_ < bar.current_state_ + bar.step_size_
        · exact Or.inr (by rw [if_pos hnl])
        · exact Or.inl (by rw [if_neg hnl])
      · intro m hm ha
        subst hm
        rw [← hout]
        show (if bar.allow_additional_message = true then [ljust80 m] else []) ++ _ = _
        rw [if_pos ha]
        rfl
      · intro hcase
        rw [← hout]
        cases ann with
        | none => rfl
        | some m =>
          have ha : bar.allow_additional_message = false := by
            rcases hcase with h1 | h2
            · exact absurd h1 (by simp)
            · exact h2
          show (if bar.allow_additional_message = true then [ljust80 m] else []) ++ _ = _
          rw [if_neg (by simp [ha])]
          rfl
  · intro n t1 a b0 o0 hinit
    by_cases hn : n = 0
    · rw [hn] at hinit
      simp [ProgressBar.init] at hinit
    · rw [init_ok n hn a t1] at hinit
      simp only [Except.ok.injEq, Prod.mk.injEq] at hinit
      obtain ⟨hb, ho⟩ := hinit
      subst hb
      rw [← ho]
      rfl

/-- Witness for C8 (amended) on a concrete call that supplies an
annotation with the annotation tier enabled: the annotation line is
written first, and the padding facts are exercised. -/
theorem C8_fixed_width_witness :
    (spOutD (mkBar 10 true 0) 0 (some "hi")).head? = some (ljust80 "hi") ∧
    (pad80 "").length = 80 ∧ (ljust80 "ab").length = 80 := by
  have h := C8_fixed_width (mkBar 10 true 0) 0 (some "hi")
    (spStateD (mkBar 10 true 0) 0 (some "hi"))
    (spOutD (mkBar 10 true 0) 0 (some "hi"))
    (show_progress_eq_of_ok (mkBar 10 true 0) 0 (some "hi") (by norm_num [mkBar]))
  obtain ⟨nlPart, -, hannW, -⟩ := h.1
  refine ⟨?_, ?_, ?_⟩
  · rw [hannW "hi" rfl rfl]
    rfl
  · rw [(h.2.1 "").1]
    decide
  · rw [(h.2.1 "ab").2]
    decide

end NilearnProgress
